import Mathlib

/-
Verification of the `caller` package: an ignore-list-aware call-stack walker.

Embedding notes.
* A Go string is modelled as a Lean `String`; the index arithmetic of
  `PackageName` is carried out on the underlying `List Char`.
* A captured call stack is modelled as a `List Frame`, outermost capture
  point (the frame of the runtime capture primitive itself) first, exactly
  the order in which program counters are recorded.  `runtime.Frames` with
  its `Next` iterator (frame plus a "more" flag) becomes structural
  recursion on that list; the zero `runtime.Frame` returned after
  exhaustion is `zeroFrame`.
* `panic` becomes `Except.error` carrying the panic message.
* The package-level global `ourPackageName` (computed once at process
  start) is passed to each operation as an explicit parameter `ourPkg`.
* Pointer-receiver methods return the updated `ACaller`; value-receiver
  methods are pure functions of the receiver copy.
-/

/-- number of frames: the `DefaultNumberOfFramesToGet` constant (15). -/
def DefaultNumberOfFramesToGet : Nat := 15

/-- Go `strings.Index` restricted to a single character: index of the first
occurrence of `c`, `none` when absent (Go returns -1). -/
def firstIdx (c : Char) : List Char → Option Nat
  | [] => none
  | a :: rest => if a = c then some 0 else (firstIdx c rest).map (· + 1)

/-- Go `strings.LastIndex` restricted to a single character: index of the last
occurrence of `c`, `none` when absent (Go returns -1). -/
def lastIdx (c : Char) : List Char → Option Nat
  | [] => none
  | a :: rest =>
    match lastIdx c rest with
    | some i => some (i + 1)
    | none => if a = c then some 0 else none

/-- List-level body of `PackageName`: find the last path separator (a missing
one, Go's -1, is replaced by index 0), then the first dot at or after it;
the package name is everything before that dot, and the empty string when
there is no such dot. -/
def packageNameL (s : List Char) : List Char :=
  let slashIndex := (lastIdx ('/') s).getD 0
  match firstIdx ('.') (s.drop slashIndex) with
  | none => []
  | some dotIndex => s.take (slashIndex + dotIndex)

/-- `PackageName` parses the full function name provided by a frame to find
the package name. -/
def PackageName (fullFuncName : String) : String :=
  String.mk (packageNameL fullFuncName.data)

/-- A single stack activation record as exposed by the runtime: fully
qualified function name, source file, line. -/
structure Frame where
  function : String
  file : String
  line : Nat
deriving DecidableEq

/-- The zero `runtime.Frame`, produced by `Next` once a frame sequence is
exhausted. -/
def zeroFrame : Frame := { function := (""), file := (""), line := 0 }

/-- The resolver state `ACaller`: requested frame depth (`int`, 0 meaning
"use the default") and the two ignore lists. -/
structure ACaller where
  numFramesToGet : Int
  ignorePackages : List String
  ignoreFunctions : List String
deriving DecidableEq

/-- `getFrames` captures up to `num + skip` program counters of the current
stack (`stack` is the full physical stack at the capture point), fails
("no callers") when none are captured, fails ("not enough frames") when
`skip ≥ n - 1` for `n` the number captured, and otherwise yields the
captured frames past the first `skip`. -/
def getFrames (num skip : Nat) (stack : List Frame) : Except String (List Frame) :=
  let n := min stack.length (num + skip)
  if n = 0 then Except.error ("no callers")
  else if n - 1 ≤ skip then Except.error ("not enough frames")
  else Except.ok ((stack.take n).drop skip)

/-- The caller-identification loop shared by `Helper` and `IgnoreFunction`:
pull frames; skip frames with an empty function name (fatal when none
remain), stop at the first frame whose package is neither `ourPkg` nor
`runtime` (`some`), and give up silently (`none`) when frames run out on a
frame of the resolver's own or the runtime package. -/
def findCallerFrame (ourPkg : String) : List Frame → Except String (Option Frame)
  | [] => Except.error ("Was not able to get the function name ran out of frames")
  | [f] =>
    if f.function = ("") then
      Except.error ("Was not able to get the function name ran out of frames")
    else if PackageName f.function ≠ ourPkg ∧ PackageName f.function ≠ ("runtime") then
      Except.ok (some f)
    else Except.ok none
  | f :: g :: t =>
    if f.function = ("") then findCallerFrame ourPkg (g :: t)
    else if PackageName f.function ≠ ourPkg ∧ PackageName f.function ≠ ("runtime") then
      Except.ok (some f)
    else findCallerFrame ourPkg (g :: t)

/-- The package-identification loop of `IgnorePackage`: pull frames while the
parsed package name is empty, step over frames of the resolver's own package
while more remain, and stop with the package name of the current frame
(possibly empty when the walk exhausts the frames). -/
def ignorePackageFind (ourPkg : String) : List Frame → String
  | [] => ("")
  | [f] => PackageName f.function
  | f :: g :: t =>
    if PackageName f.function ≠ ("") then
      (if PackageName f.function = ourPkg then ignorePackageFind ourPkg (g :: t)
       else PackageName f.function)
    else ignorePackageFind ourPkg (g :: t)

/-- `IgnorePackage` marks the calling function's package as ignored: resolve
the package of the caller (5 frames, skip 3), fail when it cannot be
resolved, do nothing for the resolver's own or the runtime package, and
otherwise append it to `ignorePackages`. -/
def ACaller.IgnorePackage (c : ACaller) (ourPkg : String) (stack : List Frame) :
    Except String ACaller :=
  match getFrames 5 3 stack with
  | Except.error e => Except.error e
  | Except.ok fs =>
    let packageName := ignorePackageFind ourPkg fs
    if packageName = ("") then
      Except.error ("Was not able to get the package name")
    else if packageName = ourPkg ∨ packageName = ("runtime") then Except.ok c
    else Except.ok { c with ignorePackages := c.ignorePackages ++ [packageName] }

/-- `Helper` marks the calling function as ignored: resolve the calling frame
(5 frames, skip 3), then append its function name to `ignoreFunctions`
unless it is already there, its package is the resolver's own or the
runtime package, or its package is already ignored. -/
def ACaller.Helper (c : ACaller) (ourPkg : String) (stack : List Frame) :
    Except String ACaller :=
  match getFrames 5 3 stack with
  | Except.error e => Except.error e
  | Except.ok fs =>
    match findCallerFrame ourPkg fs with
    | Except.error e => Except.error e
    | Except.ok none => Except.ok c
    | Except.ok (some frame) =>
      if frame.function ∈ c.ignoreFunctions then Except.ok c
      else if PackageName frame.function = ourPkg ∨
          PackageName frame.function = ("runtime") then Except.ok c
      else if PackageName frame.function ∈ c.ignorePackages then Except.ok c
      else Except.ok { c with ignoreFunctions := c.ignoreFunctions ++ [frame.function] }

/-- `IgnoreFunction` marks the named function of the calling package as
ignored: resolve the calling package (5 frames, skip 3), build
`package.name`, and append it to `ignoreFunctions` under the same three
guards as `Helper`. -/
def ACaller.IgnoreFunction (c : ACaller) (ourPkg : String) (nm : String)
    (stack : List Frame) : Except String ACaller :=
  match getFrames 5 3 stack with
  | Except.error e => Except.error e
  | Except.ok fs =>
    match findCallerFrame ourPkg fs with
    | Except.error e => Except.error e
    | Except.ok none => Except.ok c
    | Except.ok (some frame) =>
      let packageName := PackageName frame.function
      let fullFunctionName := packageName ++ (".") ++ nm
      if fullFunctionName ∈ c.ignoreFunctions then Except.ok c
      else if packageName = ourPkg ∨ packageName = ("runtime") then Except.ok c
      else if packageName ∈ c.ignorePackages then Except.ok c
      else Except.ok { c with ignoreFunctions := c.ignoreFunctions ++ [fullFunctionName] }

/-- `skipFrame` decides whether a frame is in one of the ignore lists: the
runtime package and the resolver's own package are always skipped, then the
package ignore list is scanned, then the function ignore list. -/
def ACaller.skipFrame (c : ACaller) (ourPkg : String) (frame : Frame) : Bool :=
  let functionName := frame.function
  let packageName := PackageName functionName
  if packageName = ("runtime") ∨ packageName = ourPkg then true
  else if packageName ∈ c.ignorePackages then true
  else if functionName ∈ c.ignoreFunctions then true
  else false

/-- `SetNumberOfFramesToGet` changes the frame depth, but only when the
requested size exceeds the `DefaultNumberOfFramesToGet` constant. -/
def ACaller.SetNumberOfFramesToGet (c : ACaller) (size : Nat) : ACaller :=
  if DefaultNumberOfFramesToGet < size then { c with numFramesToGet := (size : Int) }
  else c

/-- `NumberOfFramesToGet` returns the configured frame depth, or the default
when the field is zero. -/
def ACaller.NumberOfFramesToGet (c : ACaller) : Int :=
  if c.numFramesToGet ≠ 0 then c.numFramesToGet else (DefaultNumberOfFramesToGet : Int)

/-- The frame-walking loop of `Caller`: pull frames until one is not skipped
or none remain, and return the frame at which the loop stopped (the last
one examined when every frame was skipped). -/
def ACaller.callerLoop (c : ACaller) (ourPkg : String) : List Frame → Frame
  | [] => zeroFrame
  | [f] => f
  | f :: g :: t => if c.skipFrame ourPkg f then c.callerLoop ourPkg (g :: t) else f

/-- `Caller` walks up the call stack to find the caller that led to the call
of the function that called `Caller`: fetch `NumberOfFramesToGet()` frames
skipping 4, then run the walking loop. -/
def ACaller.Caller (c : ACaller) (ourPkg : String) (stack : List Frame) :
    Except String Frame :=
  match getFrames (c.NumberOfFramesToGet).toNat 4 stack with
  | Except.error e => Except.error e
  | Except.ok fs => Except.ok (c.callerLoop ourPkg fs)

/-! ### The specification-side restatements used to settle the claims -/

/-- Written from the spec's words: the position of the first `'.'` at or
after position `k`, found by scanning absolute positions. -/
def firstDotFrom (k : Nat) (s : List Char) : Option Nat :=
  (List.range s.length).find? (fun i => decide (k ≤ i) && (s[i]? == some ('.')))

/-- Written from the spec's words: everything before the first `'.'` at or
after the last `'/'` (at or after position 0 when there is no `'/'`), and
empty when that search finds no `'.'`. -/
def packageNameSpecL (s : List Char) : List Char :=
  let start := match lastIdx ('/') s with | some k => k | none => 0
  match firstDotFrom start s with
  | none => []
  | some i => s.take i

/-- String-level wrapper of `packageNameSpecL`. -/
def packageNameSpec (s : String) : String := String.mk (packageNameSpecL s.data)

/-- Written from the spec's words: a frame is ignored exactly when its
package is the runtime package or the resolver's own package, or its
package is in the package ignore list, or its fully-qualified function name
is in the function ignore list. -/
def callerIgnored (ourPkg : String) (c : ACaller) (f : Frame) : Prop :=
  PackageName f.function = ("runtime") ∨ PackageName f.function = ourPkg ∨
    PackageName f.function ∈ c.ignorePackages ∨ f.function ∈ c.ignoreFunctions

instance (ourPkg : String) (c : ACaller) (f : Frame) : Decidable (callerIgnored ourPkg c f) := by
  unfold callerIgnored
  infer_instance

/-- The invariant of the spec: the resolver's own package and the runtime
package appear in neither ignore list (for `ignoreFunctions`, as the parsed
package of an entry). -/
def GoodState (ourPkg : String) (c : ACaller) : Prop :=
  ourPkg ∉ c.ignorePackages ∧ ("runtime") ∉ c.ignorePackages ∧
    ∀ fn ∈ c.ignoreFunctions, PackageName fn ≠ ourPkg ∧ PackageName fn ≠ ("runtime")

instance (ourPkg : String) (c : ACaller) : Decidable (GoodState ourPkg c) := by
  unfold GoodState
  infer_instance

/-! ### Go call-site semantics of the value-receiver methods -/

/-- A call `v.Caller()` in Go copies the receiver `v` into the method; the
body of `Caller` never assigns a field of that copy (it only reads), and
the copy is discarded at return, so the caller's variable is returned
unchanged alongside the result. -/
def ACaller.callerInvoke (c : ACaller) (ourPkg : String) (stack : List Frame) :
    Except String Frame × ACaller :=
  (c.Caller ourPkg stack, c)

/-- A call `v.NumberOfFramesToGet()` in Go copies the receiver; the body only
reads `numFramesToGet`, and the copy is discarded at return. -/
def ACaller.numberInvoke (c : ACaller) : Int × ACaller :=
  (c.NumberOfFramesToGet, c)

/-! ### Concrete stacks and resolver states used as witness inputs -/

/-- The import path of the `caller` package, the value the process-wide
global `ourPackageName` resolves to in the shipped module. -/
def gdeyCallerPkg : String := ("github.com/gdey/caller")

/-- The empty resolver (the zero value of `ACaller`). -/
def emptyACaller : ACaller :=
  { numFramesToGet := 0, ignorePackages := [], ignoreFunctions := [] }

def frRuntimeCallers : Frame :=
  { function := ("runtime.Callers"), file := ("callers.go"), line := 1 }

def frGetFrames : Frame :=
  { function := ("github.com/gdey/caller.getFrames"), file := ("caller.go"), line := 64 }

def frCallerMethod : Frame :=
  { function := ("github.com/gdey/caller.ACaller.Caller"), file := ("caller.go"), line := 294 }

def frHelperMethod : Frame :=
  { function := ("github.com/gdey/caller.ACaller.Helper"), file := ("caller.go"), line := 138 }

def frSetup : Frame :=
  { function := ("app/pkg.Setup"), file := ("setup.go"), line := 10 }

def frGithub : Frame :=
  { function := ("github.F"), file := ("f.go"), line := 3 }

def frMain : Frame :=
  { function := ("main.main"), file := ("main.go"), line := 5 }

def frGoexit : Frame :=
  { function := ("runtime.goexit"), file := ("proc.go"), line := 250 }

/-- A physical stack as seen by the mutators (`Helper`, `IgnoreFunction`,
`IgnorePackage`): capture primitive, `getFrames`, the method, then the
user frames. -/
def stackMut : List Frame :=
  [frRuntimeCallers, frGetFrames, frHelperMethod, frSetup, frMain]

/-- A physical stack as seen by `Caller` with a user frame deep enough that
the walk succeeds. -/
def stackCall : List Frame :=
  [frRuntimeCallers, frGetFrames, frCallerMethod, frSetup, frMain, frGoexit]

/-- A five-frame physical stack: a goroutine that calls `Caller` directly. -/
def stackShallow : List Frame :=
  [frRuntimeCallers, frGetFrames, frCallerMethod, frMain, frGoexit]

/-- A mutator stack whose user frame lives in a package named `github`. -/
def stackGithub : List Frame :=
  [frRuntimeCallers, frGetFrames, frHelperMethod, frGithub, frMain]

/-- A resolver that ignores the `main` package. -/
def cMainIgnored : ACaller :=
  { numFramesToGet := 0, ignorePackages := [("main")], ignoreFunctions := [] }

/-- A resolver that ignores the `app/pkg` package. -/
def cAppPkg : ACaller :=
  { numFramesToGet := 0, ignorePackages := [("app/pkg")], ignoreFunctions := [] }

/-! ### Index lemmas for `firstIdx` and `lastIdx` -/

theorem firstIdx_eq_none (c : Char) (l : List Char) : firstIdx c l = none ↔ c ∉ l := by
  induction l with
  | nil => simp [firstIdx]
  | cons a t ih =>
    by_cases h : a = c
    · simp [firstIdx, h]
    · simp [firstIdx, h, ih, (Ne.symm h : c ≠ a)]

theorem mem_of_firstIdx_some (c : Char) (l : List Char) (d : Nat)
    (h : firstIdx c l = some d) : c ∈ l := by
  by_contra hc
  rw [(firstIdx_eq_none c l).mpr hc] at h
  cases h

theorem lastIdx_eq_none (c : Char) (l : List Char) : lastIdx c l = none ↔ c ∉ l := by
  induction l with
  | nil => simp [lastIdx]
  | cons a t ih =>
    cases h' : lastIdx c t with
    | some i =>
      have hm : c ∈ t := by
        by_contra hc
        rw [ih.mpr hc] at h'
        cases h'
      simp [lastIdx, h', hm]
    | none =>
      have hct : c ∉ t := ih.mp h'
      by_cases h : a = c
      · simp [lastIdx, h', h]
      · simp [lastIdx, h', h, hct, (Ne.symm h : c ≠ a)]

theorem lastIdx_eq_some (c : Char) (l : List Char) (i : Nat) :
    lastIdx c l = some i ↔ (l[i]? = some c ∧ c ∉ l.drop (i + 1)) := by
  induction l generalizing i with
  | nil => simp [lastIdx]
  | cons a t ih =>
    cases h' : lastIdx c t with
    | some j =>
      have hm : c ∈ t := by
        by_contra hc
        rw [(lastIdx_eq_none c t).mpr hc] at h'
        cases h'
      cases i with
      | zero => simp [lastIdx, h', hm]
      | succ k =>
        rw [show lastIdx c (a :: t) = some (j + 1) by simp [lastIdx, h']]
        simp only [List.getElem?_cons_succ, List.drop_succ_cons]
        rw [← ih k, h']
        simp
    | none =>
      have hct : c ∉ t := (lastIdx_eq_none c t).mp h'
      cases i with
      | zero =>
        by_cases h : a = c
        · simp [lastIdx, h', h, hct]
        · simp [lastIdx, h', h, (Ne.symm h : c ≠ a)]
      | succ k =>
        have hr : t[k]? = some c ∧ c ∉ t.drop (k + 1) ↔ lastIdx c t = some k := (ih k).symm
        rw [show lastIdx c (a :: t) = (if a = c then some 0 else none) by simp [lastIdx, h']]
        simp only [List.getElem?_cons_succ, List.drop_succ_cons]
        rw [hr, h']
        by_cases h : a = c <;> simp [h]

theorem firstIdx_append_cons (c : Char) (xs ys : List Char) (h : c ∉ xs) :
    firstIdx c (xs ++ c :: ys) = some xs.length := by
  induction xs with
  | nil => simp [firstIdx]
  | cons a t ih =>
    have ha : a ≠ c := fun hh => h (hh ▸ List.mem_cons_self a t)
    have ht : c ∉ t := fun hh => h (List.mem_cons_of_mem a hh)
    simp [firstIdx, ha, ih ht]

theorem not_mem_take_of_firstIdx (c : Char) (l : List Char) (d : Nat)
    (h : firstIdx c l = some d) : c ∉ l.take d := by
  induction l generalizing d with
  | nil => simp
  | cons a t ih =>
    by_cases ha : a = c
    · rw [show firstIdx c (a :: t) = some 0 by simp [firstIdx, ha]] at h
      injection h with h
      subst h
      simp
    · rw [show firstIdx c (a :: t) = (firstIdx c t).map (· + 1) by simp [firstIdx, ha]] at h
      cases hf : firstIdx c t with
      | none => rw [hf] at h; cases h
      | some d' =>
        rw [hf] at h
        injection h with h
        subst h
        simp only [List.take_succ_cons, List.mem_cons]
        rintro (hh | hh)
        · exact ha hh.symm
        · exact ih d' hf hh

theorem getElem_of_firstIdx (c : Char) (l : List Char) (d : Nat)
    (h : firstIdx c l = some d) : l[d]? = some c := by
  induction l generalizing d with
  | nil => cases h
  | cons a t ih =>
    by_cases ha : a = c
    · rw [show firstIdx c (a :: t) = some 0 by simp [firstIdx, ha]] at h
      injection h with h
      subst h
      simp [ha]
    · rw [show firstIdx c (a :: t) = (firstIdx c t).map (· + 1) by simp [firstIdx, ha]] at h
      cases hf : firstIdx c t with
      | none => rw [hf] at h; cases h
      | some d' =>
        rw [hf] at h
        injection h with h
        subst h
        simpa using ih d' hf

/-! ### `PackageName` under appending `.name` to a parsed package -/

theorem packageNameL_append_dot (p nm : List Char) (hd : ('.') ∉ p) (hs : ('/') ∉ p)
    (hn : ('/') ∉ nm) : packageNameL (p ++ ('.') :: nm) = p := by
  have h1 : ('/') ∉ (p ++ ('.') :: nm) := by
    simp only [List.mem_append, List.mem_cons]
    rintro (h | h | h)
    · exact hs h
    · cases h
    · exact hn h
  have h2 : lastIdx ('/') (p ++ ('.') :: nm) = none := (lastIdx_eq_none _ _).mpr h1
  have h3 : firstIdx ('.') (p ++ ('.') :: nm) = some p.length :=
    firstIdx_append_cons ('.') p nm hd
  simp only [packageNameL, h2, Option.getD_none, List.drop_zero, h3, Nat.zero_add]
  exact List.take_left p (('.') :: nm)

theorem packageNameL_append_dot_slash (p nm : List Char) (ls : Nat)
    (hget : p[ls]? = some ('/')) (hafter : ('/') ∉ p.drop (ls + 1))
    (hdot : ('.') ∉ p.drop ls) (hn : ('/') ∉ nm) :
    packageNameL (p ++ ('.') :: nm) = p := by
  have hlt : ls < p.length := by
    by_contra hc
    rw [List.getElem?_eq_none (Nat.le_of_not_lt hc)] at hget
    cases hget
  have hlast : lastIdx ('/') (p ++ ('.') :: nm) = some ls := by
    rw [lastIdx_eq_some]
    constructor
    · rw [List.getElem?_append, if_pos hlt]
      exact hget
    · rw [List.drop_append_of_le_length (by omega)]
      simp only [List.mem_append, List.mem_cons]
      rintro (h | h | h)
      · exact hafter h
      · cases h
      · exact hn h
  have hfirst : firstIdx ('.') ((p ++ ('.') :: nm).drop ls) = some (p.length - ls) := by
    rw [List.drop_append_of_le_length (Nat.le_of_lt hlt)]
    have := firstIdx_append_cons ('.') (p.drop ls) nm hdot
    rwa [List.length_drop] at this
  simp only [packageNameL, hlast, Option.getD_some, hfirst]
  rw [show ls + (p.length - ls) = p.length by omega]
  exact List.take_left p (('.') :: nm)

theorem packageNameL_package_append (s nm : List Char) (hn : ('/') ∉ nm) :
    packageNameL (packageNameL s ++ ('.') :: nm) = packageNameL s := by
  cases hsl : lastIdx ('/') s with
  | none =>
    cases hfd : firstIdx ('.') s with
    | none =>
      have hp : packageNameL s = [] := by
        simp [packageNameL, hsl, hfd]
      rw [hp]
      exact packageNameL_append_dot [] nm (by simp) (by simp) hn
    | some d =>
      have hp : packageNameL s = s.take d := by
        simp [packageNameL, hsl, hfd]
      rw [hp]
      refine packageNameL_append_dot (s.take d) nm ?_ ?_ hn
      · exact not_mem_take_of_firstIdx ('.') s d hfd
      · intro hc
        exact (lastIdx_eq_none ('/') s).mp hsl (List.take_subset d s hc)
  | some ls =>
    cases hfd : firstIdx ('.') (s.drop ls) with
    | none =>
      have hp : packageNameL s = [] := by
        simp [packageNameL, hsl, hfd]
      rw [hp]
      exact packageNameL_append_dot [] nm (by simp) (by simp) hn
    | some d =>
      have hp : packageNameL s = s.take (ls + d) := by
        simp [packageNameL, hsl, hfd]
      have hgs := (lastIdx_eq_some ('/') s ls).mp hsl
      have hd1 : 1 ≤ d := by
        rcases Nat.eq_zero_or_pos d with h0 | h1
        · subst h0
          have := getElem_of_firstIdx ('.') (s.drop ls) 0 hfd
          rw [List.getElem?_drop, Nat.add_zero, hgs.1] at this
          cases this
        · exact h1
      have hget : (s.take (ls + d))[ls]? = some ('/') := by
        rw [List.getElem?_take, if_pos (by omega)]
        exact hgs.1
      have hafter : ('/') ∉ (s.take (ls + d)).drop (ls + 1) := by
        rw [List.drop_take]
        intro hc
        exact hgs.2 (List.take_subset _ _ hc)
      have hdot : ('.') ∉ (s.take (ls + d)).drop ls := by
        rw [List.drop_take, show ls + d - ls = d by omega]
        exact not_mem_take_of_firstIdx ('.') (s.drop ls) d hfd
      rw [hp]
      exact packageNameL_append_dot_slash (s.take (ls + d)) nm ls hget hafter hdot hn

theorem PackageName_package_append (s nm : String) (hn : ('/') ∉ nm.data) :
    PackageName (PackageName s ++ (".") ++ nm) = PackageName s := by
  have hdata : (PackageName s ++ (".") ++ nm).data
      = packageNameL s.data ++ ('.') :: nm.data := by
    simp [PackageName, String.data_append]
  show String.mk (packageNameL (PackageName s ++ (".") ++ nm).data) = PackageName s
  rw [hdata, packageNameL_package_append s.data nm.data hn]
  rfl

/-! ### Relating relative-index search to absolute-index search -/

theorem find_range_getElem (c : Char) (l : List Char) :
    (List.range l.length).find? (fun i => l[i]? == some c) = firstIdx c l := by
  induction l with
  | nil => simp [firstIdx]
  | cons a t ih =>
    rw [List.length_cons, List.range_succ_eq_map, List.find?_cons]
    by_cases h : a = c
    · simp [h, firstIdx]
    · have h0 : ((a :: t)[0]? == some c) = false := by simp [h]
      simp only [h0]
      rw [List.find?_map]
      have hp : ((fun i => (a :: t)[i]? == some c) ∘ Nat.succ) = (fun i => t[i]? == some c) := by
        funext i
        simp
      rw [hp, ih]
      rw [show firstIdx c (a :: t) = (firstIdx c t).map (· + 1) by simp [firstIdx, h]]

theorem firstDotFrom_eq (s : List Char) :
    ∀ k, firstDotFrom k s = (firstIdx ('.') (s.drop k)).map (· + k) := by
  induction s with
  | nil =>
    intro k
    simp [firstDotFrom, firstIdx]
  | cons a t ih =>
    intro k
    cases k with
    | zero =>
      have hp : (fun i => decide (0 ≤ i) && ((a :: t)[i]? == some ('.'))) =
          (fun i => (a :: t)[i]? == some ('.')) := by
        funext i
        simp
      rw [firstDotFrom, hp, find_range_getElem, List.drop_zero]
      cases firstIdx ('.') (a :: t) <;> simp
    | succ k =>
      rw [firstDotFrom, List.length_cons, List.range_succ_eq_map, List.find?_cons]
      have h0 : (decide (k + 1 ≤ 0) && ((a :: t)[0]? == some ('.'))) = false := by
        simp
      simp only [h0]
      rw [List.find?_map]
      have hp : ((fun i => decide (k + 1 ≤ i) && ((a :: t)[i]? == some ('.'))) ∘ Nat.succ) =
          (fun i => decide (k ≤ i) && (t[i]? == some ('.'))) := by
        funext i
        simp [Nat.succ_le_succ_iff]
      rw [hp, show (List.range t.length).find?
        (fun i => decide (k ≤ i) && (t[i]? == some ('.'))) = firstDotFrom k t from rfl]
      rw [ih k, List.drop_succ_cons]
      cases firstIdx ('.') (t.drop k) <;> simp [Nat.succ_eq_add_one] <;> omega

theorem packageNameL_eq_spec (s : List Char) : packageNameL s = packageNameSpecL s := by
  cases hsl : lastIdx ('/') s with
  | none =>
    simp only [packageNameL, packageNameSpecL, hsl, Option.getD_none]
    rw [firstDotFrom_eq s 0, List.drop_zero]
    cases firstIdx ('.') s <;> simp
  | some k =>
    simp only [packageNameL, packageNameSpecL, hsl, Option.getD_some]
    rw [firstDotFrom_eq s k]
    cases firstIdx ('.') (s.drop k) <;> simp [Nat.add_comm]

/-! ### The caller-identification walk and the skip predicate -/

theorem findCallerFrame_some (ourPkg : String) (l : List Frame) (f : Frame)
    (h : findCallerFrame ourPkg l = Except.ok (some f)) :
    PackageName f.function ≠ ourPkg ∧ PackageName f.function ≠ ("runtime") := by
  induction l with
  | nil => cases h
  | cons a t ih =>
    cases t with
    | nil =>
      rw [findCallerFrame] at h
      split_ifs at h with h1 h2
      · obtain rfl : a = f := by simpa using h
        exact h2
      · simp at h
    | cons b t' =>
      rw [findCallerFrame] at h
      split_ifs at h with h1 h2
      · exact ih h
      · obtain rfl : a = f := by simpa using h
        exact h2
      · exact ih h

theorem skipFrame_eq_callerIgnored (c : ACaller) (p : String) (f : Frame) :
    c.skipFrame p f = decide (callerIgnored p c f) := by
  simp only [ACaller.skipFrame, callerIgnored]
  split_ifs with h1 h2 h3 <;> simp <;> tauto

theorem callerLoop_eq_find (c : ACaller) (p : String) (l : List Frame) :
    c.callerLoop p l =
      (l.find? (fun f => ! c.skipFrame p f)).getD ((l.getLast?).getD zeroFrame) := by
  induction l with
  | nil => simp [ACaller.callerLoop, List.find?]
  | cons f t ih =>
    cases t with
    | nil =>
      cases h : c.skipFrame p f
      · rw [ACaller.callerLoop, List.find?_cons_of_pos _ (by simp [h])]
        rfl
      · rw [ACaller.callerLoop, List.find?_cons_of_neg _ (by simp [h])]
        simp [List.find?, List.getLast?_singleton]
    | cons g t' =>
      cases h : c.skipFrame p f
      · rw [ACaller.callerLoop, if_neg (by simp [h]), List.find?_cons_of_pos _ (by simp [h])]
        rfl
      · rw [ACaller.callerLoop, if_pos h, List.find?_cons_of_neg _ (by simp [h]), ih,
          List.getLast?_cons_cons]


/-! ### Claim theorems -/

/-- C4: for every input string, `PackageName` returns everything before the
first `'.'` at or after the last `'/'` (or before the first `'.'` in the
whole string when there is no `'/'`), and returns the empty string when
that search finds no `'.'`; in particular the four table entries hold. -/
theorem packageName_first_dot_after_last_slash :
    (∀ s : String, PackageName s = packageNameSpec s) ∧
    PackageName ("group/sub.Type.Method") = ("group/sub") ∧
    PackageName ("runtime.Caller") = ("runtime") ∧
    PackageName ("Caller") = ("") ∧
    PackageName ("gdey/caller.Foo") = ("gdey/caller") := by
  refine ⟨fun s => ?_, by decide, by decide, by decide, by decide⟩
  show String.mk (packageNameL s.data) = String.mk (packageNameSpecL s.data)
  rw [packageNameL_eq_spec]

/-- C8: the frame source fails exactly when zero program counters are
captured or when the requested skip count is at least the number captured
minus one; in all other cases it returns a frame sequence. -/
theorem getFrames_fails_in_exactly_two_cases (num skip : Nat) (stack : List Frame) :
    (∃ e, getFrames num skip stack = Except.error e) ↔
      ((min stack.length (num + skip) : Int) = 0 ∨
        (skip : Int) ≥ (min stack.length (num + skip) : Int) - 1) := by
  simp only [getFrames]
  split_ifs with h1 h2
  · simp only [Except.error.injEq, exists_eq']
    constructor
    · intro _
      omega
    · intro _
      trivial
  · simp only [Except.error.injEq, exists_eq']
    constructor
    · intro _
      omega
    · intro _
      trivial
  · constructor
    · rintro ⟨e, he⟩
      cases he
    · intro hc
      omega

/-- C2 counterexample: the depth comparison is against the constant default
(15), not the current depth, so after setting the depth to 100, a call with
50 (which is at most the current depth 100) changes the depth to 50 — the
depth both changes and decreases, contrary to the claim. -/
theorem setNumberOfFrames_decreases_cex :
    ((emptyACaller.SetNumberOfFramesToGet 100).SetNumberOfFramesToGet 50).NumberOfFramesToGet
        = 50 ∧
    (emptyACaller.SetNumberOfFramesToGet 100).NumberOfFramesToGet = 100 ∧
    (50 : Nat) ≤ 100 ∧ ((50 : Int) ≠ 100) :=
  ⟨by decide, by decide, by decide, by decide⟩

/-- C2 amended: `SetNumberOfFramesToGet n` leaves `NumberOfFramesToGet()`
unchanged when `n` is at most the constant default depth
`DefaultNumberOfFramesToGet` (15), and sets it to `n` when `n` exceeds that
constant; the configured depth can therefore decrease when a larger value
was set before. -/
theorem setNumberOfFrames_compares_against_default (c : ACaller) (size : Nat) :
    (c.SetNumberOfFramesToGet size).NumberOfFramesToGet =
      if size ≤ DefaultNumberOfFramesToGet then c.NumberOfFramesToGet
      else (size : Int) := by
  by_cases h : size ≤ DefaultNumberOfFramesToGet
  · have hs : c.SetNumberOfFramesToGet size = c := by
      rw [ACaller.SetNumberOfFramesToGet, if_neg (Nat.not_lt.mpr h)]
    rw [hs, if_pos h]
  · have hs : c.SetNumberOfFramesToGet size = { c with numFramesToGet := (size : Int) } := by
      rw [ACaller.SetNumberOfFramesToGet, if_pos (Nat.lt_of_not_le h)]
    have h15 : DefaultNumberOfFramesToGet < size := Nat.lt_of_not_le h
    rw [hs, if_neg h, ACaller.NumberOfFramesToGet]
    rw [if_pos (show ({ c with numFramesToGet := (size : Int) } : ACaller).numFramesToGet ≠ 0 by
      simp only []
      simp only [DefaultNumberOfFramesToGet] at h15
      omega)]

/-- C9 counterexample: on a five-frame physical stack (a goroutine function
calling `Caller` directly), the default resolver's `Caller` reaches the
frame source's fatal branch and fails with "not enough frames" instead of
returning a Frame. -/
theorem caller_not_total_cex :
    emptyACaller.Caller gdeyCallerPkg stackShallow = Except.error ("not enough frames") := rfl

/-- C9 amended: `Caller` returns a Frame whenever the configured depth is at
least 2 and the physical stack at the call has at least 6 frames; on
shallower stacks the frame source's fatal branch is reachable. -/
theorem caller_returns_on_deep_stacks (p : String) (c : ACaller) (stack : List Frame)
    (h1 : 2 ≤ c.NumberOfFramesToGet) (h2 : 6 ≤ stack.length) :
    ∃ f, c.Caller p stack = Except.ok f := by
  rw [ACaller.Caller]
  have hn : ¬ (min stack.length ((c.NumberOfFramesToGet).toNat + 4) = 0) := by omega
  have hs : ¬ (min stack.length ((c.NumberOfFramesToGet).toNat + 4) - 1 ≤ 4) := by omega
  simp only [getFrames]
  rw [if_neg hn, if_neg hs]
  exact ⟨_, rfl⟩

/-- C9 amended witness: a concrete six-frame stack and the default resolver. -/
theorem caller_returns_on_deep_stacks_w :
    ∃ f, emptyACaller.Caller gdeyCallerPkg stackCall = Except.ok f :=
  caller_returns_on_deep_stacks gdeyCallerPkg emptyACaller stackCall (by decide) (by decide)

/-- C10: `Caller` and `NumberOfFramesToGet` take the receiver by value; the
bodies never assign a receiver field, so after either call the fields
`numFramesToGet`, `ignorePackages` and `ignoreFunctions` of the caller's
variable are exactly as before. -/
theorem value_receivers_do_not_mutate (c : ACaller) (p : String) (stack : List Frame) :
    (c.callerInvoke p stack).2.numFramesToGet = c.numFramesToGet ∧
    (c.callerInvoke p stack).2.ignorePackages = c.ignorePackages ∧
    (c.callerInvoke p stack).2.ignoreFunctions = c.ignoreFunctions ∧
    (c.numberInvoke).2.numFramesToGet = c.numFramesToGet ∧
    (c.numberInvoke).2.ignorePackages = c.ignorePackages ∧
    (c.numberInvoke).2.ignoreFunctions = c.ignoreFunctions :=
  ⟨rfl, rfl, rfl, rfl, rfl, rfl⟩

/-- C1: when the frame fetch (depth `NumberOfFramesToGet()`, skip 4)
succeeds, `Caller` returns the first fetched frame that is not ignored —
ignored meaning: package equals the runtime package or the resolver's own
package, or package in `ignorePackages`, or fully-qualified function name
in `ignoreFunctions` — and, when every fetched frame is ignored, the last
frame examined. -/
theorem caller_returns_first_non_ignored (p : String) (c : ACaller) (stack fs : List Frame)
    (h : getFrames (c.NumberOfFramesToGet).toNat 4 stack = Except.ok fs) :
    c.Caller p stack =
      Except.ok ((fs.find? (fun f => ! decide (callerIgnored p c f))).getD
        ((fs.getLast?).getD zeroFrame)) := by
  simp only [ACaller.Caller, h]
  rw [callerLoop_eq_find]
  have hp : (fun f => ! c.skipFrame p f) = (fun f => ! decide (callerIgnored p c f)) := by
    funext f
    rw [skipFrame_eq_callerIgnored]
  rw [hp]

/-- C1 witness: with the `main` package ignored, every fetched frame of the
concrete stack is ignored and the fallback (last examined frame) fires. -/
theorem caller_returns_first_non_ignored_w :
    cMainIgnored.Caller gdeyCallerPkg stackCall =
      Except.ok (([frMain, frGoexit].find?
          (fun f => ! decide (callerIgnored gdeyCallerPkg cMainIgnored f))).getD
        (([frMain, frGoexit].getLast?).getD zeroFrame)) :=
  caller_returns_first_non_ignored gdeyCallerPkg cMainIgnored stackCall [frMain, frGoexit] rfl

/-- C3 counterexample: two `IgnorePackage` calls from the same package
(`app/pkg`) append the package name twice; it appears twice, not once, in
`ignorePackages`. -/
theorem ignorePackage_dedup_cex :
    emptyACaller.IgnorePackage gdeyCallerPkg stackMut = Except.ok cAppPkg ∧
    cAppPkg.IgnorePackage gdeyCallerPkg stackMut =
      Except.ok ({ numFramesToGet := 0,
                   ignorePackages := [("app/pkg"), ("app/pkg")],
                   ignoreFunctions := [] } : ACaller) ∧
    ([("app/pkg"), ("app/pkg")] : List String).count ("app/pkg") = 2 :=
  ⟨rfl, rfl, by decide⟩

/-- C3 amended: `IgnorePackage` appends the resolved package name without
any duplicate check, so a second call from the same package appends it
again and the count of that name grows by two across the two calls. -/
theorem ignorePackage_appends_without_dedup (p : String) (c : ACaller)
    (stack fs : List Frame) (pk : String)
    (h1 : getFrames 5 3 stack = Except.ok fs)
    (h2 : ignorePackageFind p fs = pk)
    (h3 : pk ≠ ("")) (h4 : pk ≠ p) (h5 : pk ≠ ("runtime")) :
    c.IgnorePackage p stack = Except.ok { c with ignorePackages := c.ignorePackages ++ [pk] } ∧
    ({ c with ignorePackages := c.ignorePackages ++ [pk] } : ACaller).IgnorePackage p stack =
      Except.ok { c with ignorePackages := (c.ignorePackages ++ [pk]) ++ [pk] } ∧
    ((c.ignorePackages ++ [pk]) ++ [pk]).count pk = c.ignorePackages.count pk + 2 := by
  have key : ∀ d : ACaller, d.IgnorePackage p stack =
      Except.ok { d with ignorePackages := d.ignorePackages ++ [pk] } := by
    intro d
    simp only [ACaller.IgnorePackage, h1, h2]
    rw [if_neg h3, if_neg (by tauto)]
  refine ⟨key c, key { c with ignorePackages := c.ignorePackages ++ [pk] }, ?_⟩
  simp [List.count_append]

/-- C3 amended witness: the concrete double `IgnorePackage` from `app/pkg`. -/
theorem ignorePackage_appends_without_dedup_w :
    emptyACaller.IgnorePackage gdeyCallerPkg stackMut = Except.ok cAppPkg :=
  (ignorePackage_appends_without_dedup gdeyCallerPkg emptyACaller stackMut
    [frSetup, frMain] ("app/pkg") rfl rfl (by decide) (by decide) (by decide)).1

/-- C6: once package P is in `ignorePackages`, a `Helper` or
`IgnoreFunction` call whose resolved calling frame has package P leaves the
resolver (in particular `ignoreFunctions`) unchanged, and the skip
predicate used by `Caller` still skips every frame with package P. -/
theorem package_ignore_subsumes (p : String) (c : ACaller) (stack : List Frame)
    (nm : String) (fs : List Frame) (f g : Frame)
    (h1 : getFrames 5 3 stack = Except.ok fs)
    (h2 : findCallerFrame p fs = Except.ok (some f))
    (h3 : PackageName f.function ∈ c.ignorePackages)
    (hg : PackageName g.function ∈ c.ignorePackages) :
    c.Helper p stack = Except.ok c ∧ c.IgnoreFunction p nm stack = Except.ok c ∧
      c.skipFrame p g = true := by
  refine ⟨?_, ?_, ?_⟩
  · simp only [ACaller.Helper, h1, h2]
    split_ifs <;> first | rfl | exact absurd h3 (by assumption)
  · simp only [ACaller.IgnoreFunction, h1, h2]
    split_ifs <;> first | rfl | exact absurd h3 (by assumption)
  · simp only [ACaller.skipFrame]
    split_ifs <;> first | rfl | exact absurd hg (by assumption)

/-- C6 witness: with `app/pkg` ignored, `Helper` and `IgnoreFunction` from
`app/pkg` are no-ops and the skip predicate skips the `app/pkg` frame. -/
theorem package_ignore_subsumes_w :
    cAppPkg.Helper gdeyCallerPkg stackMut = Except.ok cAppPkg ∧
    cAppPkg.IgnoreFunction gdeyCallerPkg ("Foo") stackMut = Except.ok cAppPkg ∧
    cAppPkg.skipFrame gdeyCallerPkg frSetup = true :=
  package_ignore_subsumes gdeyCallerPkg cAppPkg stackMut ("Foo") [frSetup, frMain]
    frSetup frSetup rfl rfl (by decide) (by decide)

/-- A second `Helper` call from the same call site as a successful first one
leaves the state unchanged. -/
theorem helper_idem (p : String) (c c1 : ACaller) (stack : List Frame)
    (h : c.Helper p stack = Except.ok c1) : c1.Helper p stack = Except.ok c1 := by
  cases hg : getFrames 5 3 stack with
  | error e =>
    simp only [ACaller.Helper, hg] at h
    simp at h
  | ok fs =>
    simp only [ACaller.Helper, hg] at h ⊢
    cases hf : findCallerFrame p fs with
    | error e =>
      simp only [hf] at h
      simp at h
    | ok of =>
      simp only [hf] at h ⊢
      cases of with
      | none =>
        simp only [] at h
        obtain rfl : c = c1 := by simpa using h
        rfl
      | some fr =>
        simp only [] at h
        split_ifs at h with b1 b2 b3
        · obtain rfl : c = c1 := by simpa using h
          simp only []
          rw [if_pos b1]
        · obtain rfl : c = c1 := by simpa using h
          simp only []
          rw [if_neg b1, if_pos b2]
        · obtain rfl : c = c1 := by simpa using h
          simp only []
          rw [if_neg b1, if_neg b2, if_pos b3]
        · obtain rfl : { c with ignoreFunctions := c.ignoreFunctions ++ [fr.function] } = c1 := by
            simpa using h
          simp only []
          rw [if_pos (by simp)]

/-- A second `IgnoreFunction` call with the same name from the same call
site as a successful first one leaves the state unchanged. -/
theorem ignoreFunction_idem (p : String) (c c2 : ACaller) (nm : String) (stack : List Frame)
    (h : c.IgnoreFunction p nm stack = Except.ok c2) :
    c2.IgnoreFunction p nm stack = Except.ok c2 := by
  cases hg : getFrames 5 3 stack with
  | error e =>
    simp only [ACaller.IgnoreFunction, hg] at h
    simp at h
  | ok fs =>
    simp only [ACaller.IgnoreFunction, hg] at h ⊢
    cases hf : findCallerFrame p fs with
    | error e =>
      simp only [hf] at h
      simp at h
    | ok of =>
      simp only [hf] at h ⊢
      cases of with
      | none =>
        simp only [] at h
        obtain rfl : c = c2 := by simpa using h
        rfl
      | some fr =>
        simp only [] at h
        split_ifs at h with b1 b2 b3
        · obtain rfl : c = c2 := by simpa using h
          simp only []
          rw [if_pos b1]
        · obtain rfl : c = c2 := by simpa using h
          simp only []
          rw [if_neg b1, if_pos b2]
        · obtain rfl : c = c2 := by simpa using h
          simp only []
          rw [if_neg b1, if_neg b2, if_pos b3]
        · obtain rfl : { c with ignoreFunctions :=
              c.ignoreFunctions ++ [PackageName fr.function ++ (".") ++ nm] } = c2 := by
            simpa using h
          simp only []
          rw [if_pos (by simp)]

/-- C5: ignore registration is idempotent: a second `Helper` call (and a
second `IgnoreFunction` call with the same name) from the same call site as
a successful first call is a no-op, leaving the resolver state identical to
the single registration. -/
theorem ignore_registration_idempotent (p : String) (c : ACaller) (stack : List Frame)
    (nm : String) (c1 c2 : ACaller)
    (hH : c.Helper p stack = Except.ok c1)
    (hF : c.IgnoreFunction p nm stack = Except.ok c2) :
    c1.Helper p stack = Except.ok c1 ∧ c2.IgnoreFunction p nm stack = Except.ok c2 :=
  ⟨helper_idem p c c1 stack hH, ignoreFunction_idem p c c2 nm stack hF⟩

/-- C5 witness: concrete double registration of `app/pkg.Setup` (via
`Helper`) and `app/pkg.Foo` (via `IgnoreFunction`). -/
theorem ignore_registration_idempotent_w :
    ({ numFramesToGet := 0, ignorePackages := [],
       ignoreFunctions := [("app/pkg.Setup")] } : ACaller).Helper gdeyCallerPkg stackMut =
      Except.ok ({ numFramesToGet := 0, ignorePackages := [],
                   ignoreFunctions := [("app/pkg.Setup")] } : ACaller) ∧
    ({ numFramesToGet := 0, ignorePackages := [],
       ignoreFunctions := [("app/pkg.Foo")] } : ACaller).IgnoreFunction gdeyCallerPkg
        ("Foo") stackMut =
      Except.ok ({ numFramesToGet := 0, ignorePackages := [],
                   ignoreFunctions := [("app/pkg.Foo")] } : ACaller) :=
  ignore_registration_idempotent gdeyCallerPkg emptyACaller stackMut ("Foo") _ _ rfl rfl

/-- C7 counterexample: `IgnoreFunction` trusts the supplied bare name; called
from a package named `github` with the name `com/gdey/caller.Foo`, it
records `github.com/gdey/caller.Foo`, whose parsed package is exactly the
resolver's own package — the invariant fails. -/
theorem implicit_ignore_invariant_cex :
    emptyACaller.IgnoreFunction gdeyCallerPkg ("com/gdey/caller.Foo") stackGithub =
      Except.ok ({ numFramesToGet := 0, ignorePackages := [],
                   ignoreFunctions := [("github.com/gdey/caller.Foo")] } : ACaller) ∧
    PackageName ("github.com/gdey/caller.Foo") = gdeyCallerPkg ∧
    ("github.com/gdey/caller.Foo") ∈
      ({ numFramesToGet := 0, ignorePackages := [],
         ignoreFunctions := [("github.com/gdey/caller.Foo")] } : ACaller).ignoreFunctions :=
  ⟨rfl, by decide, by decide⟩

/-- `Helper` preserves the implicit-ignore invariant. -/
theorem goodState_helper (p : String) (c c1 : ACaller) (stack : List Frame)
    (hgood : GoodState p c) (h : c.Helper p stack = Except.ok c1) : GoodState p c1 := by
  cases hg : getFrames 5 3 stack with
  | error e =>
    simp only [ACaller.Helper, hg] at h
    simp at h
  | ok fs =>
    simp only [ACaller.Helper, hg] at h
    cases hf : findCallerFrame p fs with
    | error e =>
      simp only [hf] at h
      simp at h
    | ok of =>
      simp only [hf] at h
      cases of with
      | none =>
        simp only [] at h
        obtain rfl : c = c1 := by simpa using h
        exact hgood
      | some fr =>
        simp only [] at h
        split_ifs at h with b1 b2 b3
        · obtain rfl : c = c1 := by simpa using h
          exact hgood
        · obtain rfl : c = c1 := by simpa using h
          exact hgood
        · obtain rfl : c = c1 := by simpa using h
          exact hgood
        · obtain rfl : { c with ignoreFunctions := c.ignoreFunctions ++ [fr.function] } = c1 := by
            simpa using h
          obtain ⟨hfp, hfr⟩ := findCallerFrame_some p fs fr hf
          refine ⟨hgood.1, hgood.2.1, ?_⟩
          intro fn hmem
          simp at hmem
          rcases hmem with hm | rfl
          · exact hgood.2.2 fn hm
          · exact ⟨hfp, hfr⟩

/-- `IgnorePackage` preserves the implicit-ignore invariant. -/
theorem goodState_ignorePackage (p : String) (c c2 : ACaller) (stack : List Frame)
    (hgood : GoodState p c) (h : c.IgnorePackage p stack = Except.ok c2) : GoodState p c2 := by
  cases hg : getFrames 5 3 stack with
  | error e =>
    simp only [ACaller.IgnorePackage, hg] at h
    simp at h
  | ok fs =>
    simp only [ACaller.IgnorePackage, hg] at h
    by_cases b1 : ignorePackageFind p fs = ("")
    · rw [if_pos b1] at h
      simp at h
    · rw [if_neg b1] at h
      by_cases b2 : ignorePackageFind p fs = p ∨ ignorePackageFind p fs = ("runtime")
      · rw [if_pos b2] at h
        obtain rfl : c = c2 := by simpa using h
        exact hgood
      · rw [if_neg b2] at h
        obtain rfl : { c with ignorePackages :=
            c.ignorePackages ++ [ignorePackageFind p fs] } = c2 := by simpa using h
        push_neg at b2
        refine ⟨?_, ?_, hgood.2.2⟩
        · intro hc
          simp at hc
          rcases hc with hc | hc
          · exact hgood.1 hc
          · exact b2.1 hc.symm
        · intro hc
          simp at hc
          rcases hc with hc | hc
          · exact hgood.2.1 hc
          · exact b2.2 hc.symm

/-- `IgnoreFunction` preserves the implicit-ignore invariant whenever the
supplied bare name contains no path separator. -/
theorem goodState_ignoreFunction (p : String) (c c3 : ACaller) (nm : String)
    (stack : List Frame) (hnm : ('/') ∉ nm.data)
    (hgood : GoodState p c) (h : c.IgnoreFunction p nm stack = Except.ok c3) :
    GoodState p c3 := by
  cases hg : getFrames 5 3 stack with
  | error e =>
    simp only [ACaller.IgnoreFunction, hg] at h
    simp at h
  | ok fs =>
    simp only [ACaller.IgnoreFunction, hg] at h
    cases hf : findCallerFrame p fs with
    | error e =>
      simp only [hf] at h
      simp at h
    | ok of =>
      simp only [hf] at h
      cases of with
      | none =>
        simp only [] at h
        obtain rfl : c = c3 := by simpa using h
        exact hgood
      | some fr =>
        simp only [] at h
        split_ifs at h with b1 b2 b3
        · obtain rfl : c = c3 := by simpa using h
          exact hgood
        · obtain rfl : c = c3 := by simpa using h
          exact hgood
        · obtain rfl : c = c3 := by simpa using h
          exact hgood
        · obtain rfl : { c with ignoreFunctions :=
              c.ignoreFunctions ++ [PackageName fr.function ++ (".") ++ nm] } = c3 := by
            simpa using h
          obtain ⟨hfp, hfr⟩ := findCallerFrame_some p fs fr hf
          refine ⟨hgood.1, hgood.2.1, ?_⟩
          intro fn hmem
          simp at hmem
          rcases hmem with hm | rfl
          · exact hgood.2.2 fn hm
          · rw [PackageName_package_append fr.function nm hnm]
            exact ⟨hfp, hfr⟩

/-- C7 amended: every mutation preserves the invariant that the resolver's
own package and the runtime package appear in neither ignore list (for
function entries, as the parsed package) — unconditionally for `Helper` and
`IgnorePackage`, and for `IgnoreFunction` provided the supplied bare name
contains no path separator `'/'` (a raw name with a separator can smuggle
an entry whose parsed package is the resolver's own, see the
counterexample). -/
theorem implicit_ignore_invariant_preserved (p : String) (c : ACaller) (stack : List Frame)
    (nm : String) (c1 c2 c3 : ACaller)
    (hgood : GoodState p c)
    (hH : c.Helper p stack = Except.ok c1)
    (hP : c.IgnorePackage p stack = Except.ok c2)
    (hnm : ('/') ∉ nm.data)
    (hF : c.IgnoreFunction p nm stack = Except.ok c3) :
    GoodState p c1 ∧ GoodState p c2 ∧ GoodState p c3 :=
  ⟨goodState_helper p c c1 stack hgood hH,
   goodState_ignorePackage p c c2 stack hgood hP,
   goodState_ignoreFunction p c c3 nm stack hnm hgood hF⟩

/-- C7 amended witness: the three mutations on the empty resolver from the
concrete `app/pkg` stack preserve the invariant. -/
theorem implicit_ignore_invariant_preserved_w :
    GoodState gdeyCallerPkg ({ numFramesToGet := 0, ignorePackages := [],
                               ignoreFunctions := [("app/pkg.Setup")] } : ACaller) ∧
    GoodState gdeyCallerPkg cAppPkg ∧
    GoodState gdeyCallerPkg ({ numFramesToGet := 0, ignorePackages := [],
                               ignoreFunctions := [("app/pkg.Foo")] } : ACaller) :=
  implicit_ignore_invariant_preserved gdeyCallerPkg emptyACaller stackMut ("Foo") _ _ _
    (by decide) rfl rfl (by decide) rfl
